import Mathlib

/-!
Verification of the Elasticsearch sink (`src/sinks/elasticsearch.rs`).

The development shallowly embeds the sink's pure core: the bulk-document
encoder (`encode_event`, `maybe_set_id`), the sink construction function
(`es`) with its configuration defaulting, URI assembly and provider
branching, the per-batch request builder (the `HttpService` closure), and
the healthcheck.  External collaborators that the repository uses but whose
sources are not part of the crate file under verification (the `Template`
resolver, the event type with its un-flattening, the URI parser, the AWS
request signer, the batch buffer) are modelled from the specification, as
marked on each definition.  JSON serialization follows `serde_json`'s
compact output (sorted object keys, `\uXXXX` escapes for control
characters), and a verified parser establishes the round-trip properties
the specification states for the bulk wire format.
-/

/-! ## JSON values

Values as produced by the sink: strings, integers, and objects (the
specification's event data model: strings, numbers, or nested structures).
`serde_json`'s default `Map` is a `BTreeMap`, so objects keep their entries
sorted by key; `JObj.insert` mirrors `BTreeMap::insert`. -/

mutual
inductive Json where
  | str (s : String)
  | num (n : Int)
  | obj (o : JObj)
inductive JObj where
  | nil
  | cons (key : String) (value : Json) (rest : JObj)
end

/-- First entry with the given key, as `BTreeMap::get`. -/
def JObj.get? : JObj → String → Option Json
  | .nil, _ => Option.none
  | .cons k v rest, key => if k = key then some v else rest.get? key

/-- Ordered insert, replacing an existing binding, as `BTreeMap::insert`. -/
def JObj.insert : JObj → String → Json → JObj
  | .nil, key, val => .cons key val .nil
  | .cons k v rest, key, val =>
    if key < k then .cons key val (.cons k v rest)
    else if key = k then .cons key val rest
    else .cons k v (rest.insert key val)

/-! ## Serialization (serde_json compact form) -/

/-- Lowercase hex digit, as `serde_json`'s escape table. -/
def hexDigitChar (n : Nat) : Char :=
  if n < 10 then Char.ofNat (48 + n) else Char.ofNat (87 + n)

/-- Escape one character of a JSON string the way `serde_json` does:
`"`, `\` and the named control shorthands, `\u00XX` for other control
characters, everything else verbatim. -/
def escChar (c : Char) : List Char :=
  if c = '"' then ['\\', '"']
  else if c = '\\' then ['\\', '\\']
  else if c = '\n' then ['\\', 'n']
  else if c = '\t' then ['\\', 't']
  else if c = '\r' then ['\\', 'r']
  else if c = Char.ofNat 8 then ['\\', 'b']
  else if c = Char.ofNat 12 then ['\\', 'f']
  else if c.toNat < 32 then
    ['\\', 'u', '0', '0', hexDigitChar (c.toNat / 16), hexDigitChar (c.toNat % 16)]
  else [c]

def escList (cs : List Char) : List Char := (cs.map escChar).flatten

def digitChar (n : Nat) : Char := Char.ofNat (48 + n)

def serNatGo : Nat → List Char → List Char
  | n, acc => if n < 10 then digitChar n :: acc else serNatGo (n / 10) (digitChar (n % 10) :: acc)
  termination_by n _ => n
  decreasing_by exact Nat.div_lt_self (by omega) (by omega)

/-- Decimal digits of a natural number. -/
def serNat (n : Nat) : List Char := serNatGo n []

/-- Decimal rendering of an integer, as `serde_json` prints `i64`. -/
def serInt : Int → List Char
  | .ofNat n => serNat n
  | .negSucc n => '-' :: serNat (n + 1)

mutual
def serJson : Json → List Char
  | .str s => '"' :: (escList s.data ++ ['"'])
  | .num n => serInt n
  | .obj o => '{' :: (serFields o ++ ['}'])
def serFields : JObj → List Char
  | .nil => []
  | .cons k v rest =>
    '"' :: (escList k.data ++ '"' :: ':' :: serJson v)
      ++ (match rest with | .nil => [] | .cons _ _ _ => ',' :: serFields rest)
end

/-! ## Parsing (used to state the round-trip claim) -/

def hexVal (c : Char) : Option Nat :=
  if '0' ≤ c ∧ c ≤ '9' then some (c.toNat - 48)
  else if 'a' ≤ c ∧ c ≤ 'f' then some (c.toNat - 87)
  else if 'A' ≤ c ∧ c ≤ 'F' then some (c.toNat - 55)
  else Option.none

/-- Parse the body of a JSON string after the opening quote, undoing the
escapes `escChar` can produce, up to the closing quote. -/
def parseStrBody : List Char → Option (List Char × List Char)
  | [] => Option.none
  | c :: rest =>
    if c = '"' then some ([], rest)
    else if c = '\\' then
      match rest with
      | [] => Option.none
      | e :: rest2 =>
        if e = '"' then (parseStrBody rest2).map (fun p => ('"' :: p.1, p.2))
        else if e = '\\' then (parseStrBody rest2).map (fun p => ('\\' :: p.1, p.2))
        else if e = 'n' then (parseStrBody rest2).map (fun p => ('\n' :: p.1, p.2))
        else if e = 't' then (parseStrBody rest2).map (fun p => ('\t' :: p.1, p.2))
        else if e = 'r' then (parseStrBody rest2).map (fun p => ('\r' :: p.1, p.2))
        else if e = 'b' then (parseStrBody rest2).map (fun p => (Char.ofNat 8 :: p.1, p.2))
        else if e = 'f' then (parseStrBody rest2).map (fun p => (Char.ofNat 12 :: p.1, p.2))
        else if e = '/' then (parseStrBody rest2).map (fun p => ('/' :: p.1, p.2))
        else if e = 'u' then
          match rest2 with
          | h1 :: h2 :: h3 :: h4 :: rest3 =>
            match hexVal h1, hexVal h2, hexVal h3, hexVal h4 with
            | some v1, some v2, some v3, some v4 =>
              (parseStrBody rest3).map
                (fun p => (Char.ofNat (((v1 * 16 + v2) * 16 + v3) * 16 + v4) :: p.1, p.2))
            | _, _, _, _ => Option.none
          | _ => Option.none
        else Option.none
    else (parseStrBody rest).map (fun p => (c :: p.1, p.2))

/-- Consume a maximal run of decimal digits, folding them onto `acc`. -/
def parseDigits : List Char → Nat → Nat × List Char
  | [], acc => (acc, [])
  | c :: rest, acc =>
    if c.isDigit then parseDigits rest (acc * 10 + (c.toNat - 48)) else (acc, c :: rest)

/-- The numeric value `parseDigits` accumulates over a digit run. -/
def digitsFold (l : List Char) (acc : Nat) : Nat :=
  l.foldl (fun a c => a * 10 + (c.toNat - 48)) acc

/-- Whether the input starts with a decimal digit (the context after a
serialized number never does). -/
def headDigit : List Char → Bool
  | [] => false
  | c :: _ => c.isDigit

mutual
def parseJsonF : Nat → List Char → Option (Json × List Char)
  | 0, _ => Option.none
  | _ + 1, [] => Option.none
  | f + 1, c :: rest =>
    if c = '"' then (parseStrBody rest).map (fun p => (Json.str ⟨p.1⟩, p.2))
    else if c = '{' then
      match rest with
      | '}' :: r2 => some (.obj .nil, r2)
      | _ =>
        match parseFieldsF f rest with
        | some (o, r2) =>
          match r2 with
          | '}' :: r3 => some (.obj o, r3)
          | _ => Option.none
        | Option.none => Option.none
    else if c.isDigit then
      let p := parseDigits (c :: rest) 0
      some (.num (Int.ofNat p.1), p.2)
    else if c = '-' then
      match rest with
      | [] => Option.none
      | d :: _ =>
        if d.isDigit then
          let p := parseDigits rest 0
          some (.num (-(Int.ofNat p.1)), p.2)
        else Option.none
    else Option.none
def parseFieldsF : Nat → List Char → Option (JObj × List Char)
  | 0, _ => Option.none
  | _ + 1, [] => Option.none
  | f + 1, c :: rest =>
    if c = '"' then
      match parseStrBody rest with
      | some (k, r1) =>
        match r1 with
        | ':' :: r2 =>
          match parseJsonF f r2 with
          | some (v, r3) =>
            match r3 with
            | ',' :: r4 =>
              match parseFieldsF f r4 with
              | some (o, r5) => some (.cons ⟨k⟩ v o, r5)
              | Option.none => Option.none
            | _ => some (.cons ⟨k⟩ v .nil, r3)
          | Option.none => Option.none
        | _ => Option.none
      | Option.none => Option.none
    else Option.none
end

/-- Parse a complete JSON value, requiring the whole input to be consumed. -/
def jsonParse (l : List Char) : Option Json :=
  match parseJsonF (l.length + 1) l with
  | some (j, []) => some j
  | _ => Option.none

/-! ## Structural size (fuel bound for the parser) -/

mutual
def jsize : Json → Nat
  | .str _ => 1
  | .num _ => 1
  | .obj o => osize o + 1
def osize : JObj → Nat
  | .nil => 0
  | .cons _ v rest => jsize v + osize rest + 1
end

/-! ## Events and templates

Modelled from the spec: the event type (`crate::event`) and the template
resolver (`crate::template`) are repository code not present under `src/`;
they are embedded from the specification's component contracts (sections
3, 4.1, 4.2). -/

/-- Modelled from the spec: an event field value is a string or a number
(`crate::event::ValueKind`, not in `src/`). -/
inductive Value where
  | vStr (s : String)
  | vInt (n : Int)

/-- Modelled from the spec: the textual form of a field value, as
`ValueKind::to_string_lossy` renders the id field. -/
def Value.to_string_lossy : Value → String
  | .vStr s => s
  | .vInt n => toString n

/-- JSON form of a field value, as `serde` serializes it. -/
def Value.toJson : Value → Json
  | .vStr s => .str s
  | .vInt n => .num n

/-- Modelled from the spec: an event is an ordered mapping of field names
to values (flattened, dotted keys) plus an implicit timestamp field
(`crate::event::Event`, not in `src/`). -/
structure Event where
  fields : List (String × Value)
  timestamp : String

/-- Field lookup, as `LogEvent::get`. -/
def Event.get (e : Event) (key : String) : Option Value :=
  (e.fields.find? (fun p => p.1 = key)).map (fun p => p.2)

/-- Split a dotted key into its path segments. -/
def splitKeyGo : List Char → List Char → List String
  | [], acc => [⟨acc.reverse⟩]
  | '.' :: rest, acc => ⟨acc.reverse⟩ :: splitKeyGo rest []
  | c :: rest, acc => splitKeyGo rest (c :: acc)

def splitKey (k : String) : List String := splitKeyGo k.data []

/-- Insert one value at a dotted path in a JSON tree, creating or entering
nested objects along the way. -/
def insertNested : Json → List String → Json → Json
  | _, [], v => v
  | j, k :: ks, v =>
    let o := match j with | .obj o => o | _ => .nil
    let child := match o.get? k with | some c => c | Option.none => .obj .nil
    .obj (o.insert k (insertNested child ks v))

/-- Modelled from the spec: the previously flattened (dotted-key)
representation un-flattened back into nested JSON before serialization
(`LogEvent::unflatten`, not in `src/`). -/
def Event.unflatten (e : Event) : Json :=
  e.fields.foldl (fun acc p => insertNested acc (splitKey p.1) p.2.toJson) (.obj .nil)

/-- Modelled from the spec: a compiled template is a sequence of literal
segments, strftime-style time directives, and field-interpolation
directives (`crate::template::Template`, not in `src/`). -/
inductive TemplatePart where
  | lit (s : String)
  | time (fmt : String)
  | fld (name : String)

structure Template where
  parts : List TemplatePart

/-- The referenced fields absent from the event, in template order. -/
def Template.missingKeys (t : Template) (e : Event) : List String :=
  t.parts.filterMap (fun p =>
    match p with
    | .fld k => if (e.get k).isSome then Option.none else some k
    | _ => Option.none)

/-- Modelled from the spec: template resolution (`Template::render_string`,
not in `src/`): literal segments pass through, time directives render from
the event's timestamp (the strftime formatting itself is abstracted to the
timestamp's rendered text), field directives render the named field's
textual form; if any referenced field is absent the call fails naming all
absent fields. -/
def Template.render_string (t : Template) (e : Event) : Except (List String) String :=
  match t.missingKeys e with
  | [] => .ok (t.parts.foldl (fun acc p =>
      acc ++ match p with
        | .lit s => s
        | .time _ => e.timestamp
        | .fld k => match e.get k with
          | some v => v.to_string_lossy
          | Option.none => "") "")
  | keys => .error keys

/-! ## Bulk encoding (`encode_event`, `maybe_set_id`) -/

/-- `maybe_set_id` (src lines 286-294): if an id key is configured and
present on the event, insert its string form under the identifier key of
the action's index object. -/
def maybe_set_id (key : Option String) (doc : JObj) (event : Event) : JObj :=
  match key.bind (fun k => event.get k) with
  | some val => doc.insert "_id" (.str val.to_string_lossy)
  | Option.none => doc

/-- The inner object of the action header built by `encode_event`
(src lines 246-256): the resolved index, the document type, and the
optional identifier set by `maybe_set_id`. -/
def actionIndexObj (idx doc_type : String) (id_key : Option String) (event : Event) : JObj :=
  maybe_set_id id_key
    ((JObj.nil.insert "_index" (.str idx)).insert "_type" (.str doc_type)) event

/-- The full action header value `json!({"index": {...}})` of
`encode_event`. -/
def encodeAction (idx doc_type : String) (id_key : Option String) (event : Event) : Json :=
  .obj (JObj.nil.insert "index" (.obj (actionIndexObj idx doc_type id_key event)))

/-- `encode_event` (src lines 230-264): resolve the index template; on
failure drop the event (the warning is logging, outside the embedding);
otherwise emit the action header, a newline, the un-flattened event body,
and a newline. -/
def encode_event (event : Event) (index : Template) (doc_type : String)
    (id_key : Option String) : Option (List Char) :=
  match index.render_string event with
  | .error _ => Option.none
  | .ok idx =>
    some (serJson (encodeAction idx doc_type id_key event)
      ++ '\n' :: (serJson event.unflatten ++ ['\n']))

/-- The sink's per-event stage (src line 225): `with_flat_map` over
`encode_event`, so events that fail to encode are skipped and the batch
continues with the remaining ones. -/
def encodeEvents (events : List Event) (index : Template) (doc_type : String)
    (id_key : Option String) : List (List Char) :=
  events.filterMap (fun e => encode_event e index doc_type id_key)

/-! ## Configuration (`ElasticSearchConfig` and friends) -/

/-- `sinks::util::Compression` as matched at src lines 84-87. -/
inductive Compression where
  | none
  | gzip
deriving DecidableEq

inductive Provider where
  | default
  | aws
deriving DecidableEq

structure ElasticSearchBasicAuthConfig where
  password : String
  user : String
deriving DecidableEq

/-- An AWS region name, the target of the `RegionOrEndpoint` conversion. -/
abbrev Region := String

/-- Modelled from the spec: the optional region/endpoint override
(`crate::region::RegionOrEndpoint`, not in `src/`). -/
structure RegionOrEndpoint where
  name : String
deriving DecidableEq

/-- Modelled from the spec: converting the configured region into a
`rusoto` `Region` (the fallible `try_into` at src line 132); an
unrecognizable (here: empty) region name fails with a message. -/
def RegionOrEndpoint.toRegion (r : RegionOrEndpoint) : Except String Region :=
  if r.name = "" then .error "region name must not be empty" else .ok r.name

/-- An AWS signing credential as produced once at startup (src lines
143-149); its internals are opaque to the sink. -/
structure Credentials where
  access_key : String
  secret_key : String
  token : Option String
deriving DecidableEq

structure ElasticSearchConfig where
  host : String
  index : Option String := Option.none
  doc_type : Option String := Option.none
  id_key : Option String := Option.none
  batch_size : Option Nat := Option.none
  batch_timeout : Option Nat := Option.none
  compression : Option Compression := Option.none
  provider : Option Provider := Option.none
  region : Option RegionOrEndpoint := Option.none
  request_in_flight_limit : Option Nat := Option.none
  request_timeout_secs : Option Nat := Option.none
  request_rate_limit_duration_secs : Option Nat := Option.none
  request_rate_limit_num : Option Nat := Option.none
  request_retry_attempts : Option Nat := Option.none
  request_retry_backoff_secs : Option Nat := Option.none
  basic_auth : Option ElasticSearchBasicAuthConfig := Option.none
  headers : Option (List (String × String)) := Option.none
  query : Option (List (String × String)) := Option.none

/-! ## URI assembly and parsing -/

/-- UTF-8 bytes of a character (the byte level at which both
percent-encoding and base64 operate). -/
def utf8Bytes (c : Char) : List Nat :=
  let n := c.toNat
  if n < 128 then [n]
  else if n < 2048 then [192 + n / 64, 128 + n % 64]
  else if n < 65536 then [224 + n / 4096, 128 + (n / 64) % 64, 128 + n % 64]
  else [240 + n / 262144, 128 + (n / 4096) % 64, 128 + (n / 64) % 64, 128 + n % 64]

/-- Uppercase hex digit, as the `url` crate percent-encodes. -/
def hexDigitUpper (n : Nat) : Char :=
  if n < 10 then Char.ofNat (48 + n) else Char.ofNat (55 + n)

/-- One byte under `application/x-www-form-urlencoded`: alphanumerics and
`*-._` verbatim, space as `+`, anything else percent-encoded. -/
def formUrlencodeByte (b : Nat) : List Char :=
  if (48 ≤ b ∧ b ≤ 57) ∨ (65 ≤ b ∧ b ≤ 90) ∨ (97 ≤ b ∧ b ≤ 122)
      ∨ b = 42 ∨ b = 45 ∨ b = 46 ∨ b = 95 then [Char.ofNat b]
  else if b = 32 then ['+']
  else ['%', hexDigitUpper (b / 16), hexDigitUpper (b % 16)]

def formUrlencodeStr (s : String) : String :=
  ⟨((s.data.map utf8Bytes).flatten.map formUrlencodeByte).flatten⟩

/-- One `append_pair` of `url::form_urlencoded::Serializer`: a `&`
separator whenever the buffer is longer than the serializer's start
position, then the encoded pair.  `Serializer::new` leaves the start
position at 0, so a buffer pre-seeded with `/_bulk` gets a `&` (not a `?`)
before the first pair. -/
def appendPair (acc : String) (start : Nat) (name value : String) : String :=
  (if start < acc.length then acc ++ "&" else acc)
    ++ formUrlencodeStr name ++ "=" ++ formUrlencodeStr value

/-- The path-plus-query string built at src lines 122-128: a serializer
seeded with `/_bulk` and fed every configured query pair. -/
def bulkPathQuery (query : Option (List (String × String))) : String :=
  match query with
  | some q => q.foldl (fun acc p => appendPair acc 0 p.1 p.2) "/_bulk"
  | Option.none => "/_bulk"

structure Uri where
  scheme : Option String
  host : Option String
  path : String
  query : Option String
deriving DecidableEq

def splitPathQuery : List Char → List Char × Option (List Char)
  | [] => ([], Option.none)
  | '?' :: rest => ([], some rest)
  | c :: rest =>
    let p := splitPathQuery rest
    (c :: p.1, p.2)

/-- Split off a leading `scheme://`, if any. -/
def splitScheme : List Char → Option (List Char × List Char)
  | [] => Option.none
  | ':' :: '/' :: '/' :: rest => some ([], rest)
  | c :: rest => (splitScheme rest).map (fun p => (c :: p.1, p.2))

/-- Modelled from the spec: `http::Uri` parsing (external crate), the
"bad host URI" configuration error: an absolute URI needs an alphabetic
scheme and a non-empty authority, a relative one must start with `/`, and
no URI contains a space.  The authority's host is the part before any
port. -/
def parseUriChars (l : List Char) : Option Uri :=
  if l = [] ∨ l.any (fun c => c = ' ') then Option.none
  else
    match splitScheme l with
    | some (sch, rest) =>
      if sch = [] ∨ ¬ sch.all Char.isAlpha then Option.none
      else
        let auth := rest.takeWhile (fun c => ¬ (c = '/' ∨ c = '?'))
        if auth = [] then Option.none
        else
          let pq := rest.drop auth.length
          let p := splitPathQuery (if pq = [] then ['/'] else pq)
          some { scheme := some ⟨sch⟩, host := some ⟨auth.takeWhile (fun c => ¬ c = ':')⟩,
                 path := ⟨p.1⟩, query := p.2.map (fun q => ⟨q⟩) }
    | Option.none =>
      match l with
      | '/' :: _ =>
        let p := splitPathQuery l
        some { scheme := Option.none, host := Option.none,
               path := ⟨p.1⟩, query := p.2.map (fun q => ⟨q⟩) }
      | _ => Option.none

def parseUri (s : String) : Option Uri := parseUriChars s.data

/-! ## Base64 (for the basic-auth header) -/

def base64Alphabet : List Char :=
  "ABCDEFGHIJKLMNOPQRSTUVWXYZabcdefghijklmnopqrstuvwxyz0123456789+/".data

def b64At (n : Nat) : Char := base64Alphabet.getD n 'A'

def base64Chunks : List Nat → List Char
  | b1 :: b2 :: b3 :: rest =>
    b64At (b1 / 4) :: b64At ((b1 % 4) * 16 + b2 / 16)
      :: b64At ((b2 % 16) * 4 + b3 / 64) :: b64At (b3 % 64) :: base64Chunks rest
  | [b1, b2] => [b64At (b1 / 4), b64At ((b1 % 4) * 16 + b2 / 16), b64At ((b2 % 16) * 4), '=']
  | [b1] => [b64At (b1 / 4), b64At ((b1 % 4) * 16), '=', '=']
  | [] => []

/-- `base64::encode` over the string's UTF-8 bytes. -/
def base64Encode (s : String) : String := ⟨base64Chunks ((s.data.map utf8Bytes).flatten)⟩

/-! ## Template compilation -/

/-- Modelled from the spec: compiling a template pattern
(`Template::from`, not in `src/`): `\x7bname\x7d` becomes a field
directive, `%c` a time directive, everything else literal text. -/
def compileParts : List Char → List TemplatePart
  | [] => []
  | '{' :: rest =>
    let name := rest.takeWhile (fun c => ¬ c = '}')
    .fld ⟨name⟩ :: compileParts (rest.drop (name.length + 1))
  | '%' :: c :: rest => .time ⟨['%', c]⟩ :: compileParts rest
  | c :: rest =>
    match compileParts rest with
    | .lit s :: ps => .lit ⟨c :: s.data⟩ :: ps
    | ps => .lit ⟨[c]⟩ :: ps
  termination_by l => l.length
  decreasing_by
    all_goals simp_all [List.length_drop]
    all_goals omega

def compileTemplate (s : String) : Template := ⟨compileParts s.data⟩

/-! ## Sink construction (`es`, src lines 82-228) -/

/-- The outcome of `fn es`: a built sink, a returned configuration error,
or a Rust panic (`expect`). -/
inductive BuildResult (α : Type) where
  | ok (value : α)
  | err (msg : String)
  | panicked (msg : String)

def BuildResult.isErr {α : Type} : BuildResult α → Bool
  | .err _ => true
  | _ => false

/-- Everything `fn es` computes from the configuration and closes over
when assembling the sink: defaults applied exactly as at src lines
82-151. -/
structure SinkParams where
  id_key : Option String
  gzip : Bool
  batch_size : Nat
  batch_timeout : Nat
  timeout : Nat
  in_flight_limit : Nat
  rate_limit_duration : Nat
  rate_limit_num : Nat
  retry_attempts : Nat
  retry_backoff_secs : Nat
  index : Template
  doc_type : String
  authorization : Option String
  headers : List (String × String)
  uri : Uri
  region : Option Region
  credentials : Option Credentials

/-- The compression switch (src lines 84-87): defaults to gzip when the
flag is unconfigured. -/
def gzipOf (config : ElasticSearchConfig) : Bool :=
  match config.compression.getD Compression.gzip with
  | Compression.none => false
  | Compression.gzip => true

/-- The region conversion (src lines 131-134). -/
def regionResult (r : Option RegionOrEndpoint) : Except String (Option Region) :=
  match r with
  | some region => (region.toRegion).map some
  | Option.none => .ok Option.none

/-- The parameter record `fn es` builds, with every configuration default
from src lines 82-120. -/
def esParams (config : ElasticSearchConfig) (uri : Uri) (region : Option Region)
    (credentials : Option Credentials) (gzip : Bool) : SinkParams :=
  { id_key := config.id_key
    gzip := gzip
    batch_size := config.batch_size.getD (10 * 1024 * 1024)
    batch_timeout := config.batch_timeout.getD 1
    timeout := config.request_timeout_secs.getD 60
    in_flight_limit := config.request_in_flight_limit.getD 5
    rate_limit_duration := config.request_rate_limit_duration_secs.getD 1
    rate_limit_num := config.request_rate_limit_num.getD 5
    retry_attempts := config.request_retry_attempts.getD (2 ^ 64 - 1)
    retry_backoff_secs := config.request_retry_backoff_secs.getD 1
    index := compileTemplate (config.index.getD "vector-%Y.%m.%d")
    doc_type := config.doc_type.getD "_doc"
    authorization := config.basic_auth.map (fun auth =>
      "Basic " ++ base64Encode (auth.user ++ ":" ++ auth.password))
    headers := config.headers.getD []
    uri := uri
    region := region
    credentials := credentials }

/-- `fn es` (src lines 82-151), up to the assembled service: the host and
the `/_bulk` path-query are concatenated and parsed (`expect` panics on an
unparseable URI), the region is converted, and the provider branch either
keeps compression as configured (default provider, no credentials) or
forces compression off, requires a region, and acquires credentials (AWS).
The credential acquisition performs network calls; its outcome is passed
in as `credsResult`. -/
def es (config : ElasticSearchConfig) (credsResult : Except String Credentials) :
    BuildResult SinkParams :=
  match parseUri (config.host ++ bulkPathQuery config.query) with
  | Option.none => .panicked "Invalid elasticsearch host"
  | some uri =>
    match regionResult config.region with
    | .error e => .err e
    | .ok region =>
      match config.provider.getD Provider.default with
      | Provider.default => .ok (esParams config uri region Option.none (gzipOf config))
      | Provider.aws =>
        match region with
        | Option.none => .err "AWS provider requires a configured region"
        | some r =>
          match credsResult with
          | .error e => .err e
          | .ok creds => .ok (esParams config uri (some r) (some creds) false)

/-! ## Request building (the `HttpService` closure, src lines 153-210) -/

structure HttpRequest where
  method : String
  uri : Uri
  headers : List (String × String)
  body : List Char

/-- Modelled from the spec: the provider request-signing (`rusoto`'s
`SignedRequest`, an external crate): a canonical request over method,
service name `es`, the region, the path and the exact payload bytes,
signed with the stored credential; the computed headers are the host, a
date header, the authorization signature (an `AWS4-HMAC-SHA256` value,
never a `Basic` one) and, when the credential carries a session token, a
security-token header.  The cryptographic hash is abstracted; the
signature text still depends on every signed input. -/
def signedHeaders (creds : Credentials) (region : Region) (uri : Uri)
    (body : List Char) : List (String × String) :=
  [("host", (uri.host).getD ""),
   ("x-amz-date", "19700101T000000Z"),
   ("authorization",
     "AWS4-HMAC-SHA256 Credential=" ++ creds.access_key ++ "/" ++ region
       ++ "/es/aws4_request, SignedHeaders=host;x-amz-date, Signature="
       ++ toString (uri.path.length + body.length))]
  ++ (match creds.token with
      | some t => [("x-amz-security-token", t)]
      | Option.none => [])

/-- The per-batch request closure (src lines 153-210).  Plain mode adds
the content type, the gzip content encoding when compression is on, the
static headers and the optional basic-auth header.  Signed mode builds a
`SignedRequest` over the same body (no content-encoding header is ever
added there), copies every computed header, and reuses the exact payload
bytes; the `region.unwrap()` at src line 177 is a panic (`Option.none`)
if no region was stored. -/
def buildRequest (p : SinkParams) (body : List Char) : Option HttpRequest :=
  match p.credentials with
  | Option.none =>
    some { method := "POST", uri := p.uri,
           headers := ("Content-Type", "application/x-ndjson")
             :: ((if p.gzip then [("Content-Encoding", "gzip")] else [])
                 ++ p.headers
                 ++ (match p.authorization with
                     | some a => [("Authorization", a)]
                     | Option.none => [])),
           body := body }
  | some creds =>
    match p.region with
    | Option.none => Option.none
    | some region =>
      some { method := "POST", uri := p.uri,
             headers := ("Content-Type", "application/x-ndjson")
               :: (p.headers ++ signedHeaders creds region p.uri body),
             body := body }

/-- Modelled from the spec: the batch buffer (`sinks::util::Buffer`, not
in `src/`), created compressing or not by `Buffer::new(gzip)` at src line
221. -/
structure Buffer where
  compressing : Bool

def Buffer.new (gzip : Bool) : Buffer := { compressing := gzip }

/-! ## Healthcheck (src lines 266-284) -/

structure HealthcheckRequest where
  method : String
  uri : String

/-- The one-shot healthcheck request: a GET against the cluster-health
endpoint derived from the configured host (src lines 267-268). -/
def healthcheck_request (host : String) : HealthcheckRequest :=
  { method := "GET", uri := host ++ "/_cluster/health" }

/-- What the transport returned for the healthcheck: a status code or a
transport-level error. -/
inductive TransportOutcome where
  | response (status : Nat)
  | failure (message : String)
deriving DecidableEq

/-- The healthcheck's handling of the transport outcome (src lines
272-281): success exactly on status 200 (`StatusCode::OK`), a descriptive
message otherwise (the status text rendering of the HTTP crate is
abstracted to the numeric code). -/
def healthcheck_result : TransportOutcome → Except String Unit
  | .response s => if s = 200 then .ok () else .error ("Unexpected status: " ++ toString s)
  | .failure m => .error m

/-! ## Lemmas about sorted objects -/

theorem JObj.inductionOn {P : JObj → Prop} (o : JObj) (hnil : P .nil)
    (hcons : ∀ k v rest, P rest → P (.cons k v rest)) : P o :=
  match o with
  | .nil => hnil
  | .cons k v rest => hcons k v rest (JObj.inductionOn rest hnil hcons)

theorem JObj.get?_insert_self (o : JObj) (k : String) (v : Json) :
    (o.insert k v).get? k = some v := by
  induction o using JObj.inductionOn with
  | hnil => simp [JObj.insert, JObj.get?]
  | hcons k2 v2 rest ih =>
    by_cases h1 : k < k2
    · simp [JObj.insert, JObj.get?, h1]
    · by_cases h2 : k = k2
      · simp [JObj.insert, JObj.get?, h1, h2]
      · simp [JObj.insert, JObj.get?, h1, h2, Ne.symm h2, ih]

theorem JObj.get?_insert_ne (o : JObj) (k : String) (v : Json) (key : String)
    (h : k ≠ key) : (o.insert k v).get? key = o.get? key := by
  induction o using JObj.inductionOn with
  | hnil => simp [JObj.insert, JObj.get?, h]
  | hcons k2 v2 rest ih =>
    by_cases h1 : k < k2
    · simp [JObj.insert, JObj.get?, h1, h]
    · by_cases h2 : k = k2
      · subst h2
        simp [JObj.insert, JObj.get?, h1, h]
      · simp [JObj.insert, JObj.get?, h1, h2, ih]

/-! ## Lemmas about decimal digits -/

theorem digitChar_isDigit {m : Nat} (h : m < 10) : (digitChar m).isDigit = true := by
  have key : ∀ i : Fin 10, (digitChar i.val).isDigit = true := by decide
  exact key ⟨m, h⟩

theorem digitChar_toNat {m : Nat} (h : m < 10) : (digitChar m).toNat = 48 + m := by
  have key : ∀ i : Fin 10, (digitChar i.val).toNat = 48 + i.val := by decide
  exact key ⟨m, h⟩

theorem digit_ne {c : Char} (h : c.isDigit = true) :
    c ≠ '"' ∧ c ≠ '{' ∧ c ≠ '-' ∧ c ≠ '\n' ∧ c ≠ '\\' := by
  refine ⟨?_, ?_, ?_, ?_, ?_⟩ <;> rintro rfl <;> exact absurd h (by decide)

theorem serNatGo_append (n : Nat) : ∀ acc, serNatGo n acc = serNatGo n [] ++ acc := by
  induction n using Nat.strong_induction_on with
  | _ n ih =>
    intro acc
    by_cases h : n < 10
    · conv_lhs => rw [serNatGo]
      conv_rhs => rw [serNatGo]
      simp [h]
    · conv_lhs => rw [serNatGo]
      conv_rhs => rw [serNatGo]
      have hlt : n / 10 < n := Nat.div_lt_self (by omega) (by omega)
      rw [if_neg h, if_neg h, ih (n / 10) hlt (digitChar (n % 10) :: acc),
          ih (n / 10) hlt [digitChar (n % 10)]]
      simp

theorem serNat_small {n : Nat} (h : n < 10) : serNat n = [digitChar n] := by
  rw [serNat, serNatGo]
  simp [h]

theorem serNat_unfold {n : Nat} (h : ¬ n < 10) :
    serNat n = serNat (n / 10) ++ [digitChar (n % 10)] := by
  rw [serNat, serNatGo, if_neg h, serNatGo_append]
  rfl

theorem serNat_ne_nil (n : Nat) : serNat n ≠ [] := by
  by_cases h : n < 10
  · rw [serNat_small h]
    simp
  · rw [serNat_unfold h]
    simp

theorem serNat_all_digit (n : Nat) : ∀ c ∈ serNat n, c.isDigit = true := by
  induction n using Nat.strong_induction_on with
  | _ n ih =>
    by_cases h : n < 10
    · rw [serNat_small h]
      intro c hc
      rw [List.mem_singleton] at hc
      subst hc
      exact digitChar_isDigit h
    · rw [serNat_unfold h]
      intro c hc
      rw [List.mem_append] at hc
      rcases hc with hc | hc
      · exact ih (n / 10) (Nat.div_lt_self (by omega) (by omega)) c hc
      · rw [List.mem_singleton] at hc
        subst hc
        exact digitChar_isDigit (Nat.mod_lt _ (by omega))

theorem parseDigits_split (ds : List Char) : ∀ (rest : List Char) (acc : Nat),
    (∀ c ∈ ds, c.isDigit = true) → headDigit rest = false →
    parseDigits (ds ++ rest) acc = (digitsFold ds acc, rest) := by
  induction ds with
  | nil =>
    intro rest acc _ hrest
    cases rest with
    | nil => simp [parseDigits, digitsFold]
    | cons c r =>
      simp only [headDigit] at hrest
      simp [parseDigits, digitsFold, hrest]
  | cons d ds ih =>
    intro rest acc hds hrest
    have hd : d.isDigit = true := hds d (by simp)
    simp only [List.cons_append, parseDigits, hd, if_pos, List.append_eq]
    rw [ih rest _ (fun c hc => hds c (by simp [hc])) hrest]
    simp [digitsFold]

theorem digitsFold_serNat (n : Nat) : ∀ acc,
    digitsFold (serNat n) acc = acc * 10 ^ (serNat n).length + n := by
  induction n using Nat.strong_induction_on with
  | _ n ih =>
    intro acc
    by_cases h : n < 10
    · rw [serNat_small h]
      simp [digitsFold, digitChar_toNat h]
    · rw [serNat_unfold h]
      rw [digitsFold, List.foldl_append]
      have hrec := ih (n / 10) (Nat.div_lt_self (by omega) (by omega)) acc
      rw [digitsFold] at hrec
      rw [hrec]
      simp only [List.foldl_cons, List.foldl_nil, List.length_append, List.length_singleton,
        pow_succ]
      rw [digitChar_toNat (Nat.mod_lt _ (by omega)), ← mul_assoc]
      have hdm := Nat.div_add_mod n 10
      generalize acc * 10 ^ (serNat (n / 10)).length = M
      omega

theorem parseDigits_serNat (n : Nat) (rest : List Char) (hrest : headDigit rest = false) :
    parseDigits (serNat n ++ rest) 0 = (n, rest) := by
  rw [parseDigits_split (serNat n) rest 0 (serNat_all_digit n) hrest,
      digitsFold_serNat]
  simp

/-! ## Lemmas about string escaping -/

theorem hexVal_hexDigitChar {m : Nat} (h : m < 16) : hexVal (hexDigitChar m) = some m := by
  have key : ∀ i : Fin 16, hexVal (hexDigitChar i.val) = some i.val := by decide
  exact key ⟨m, h⟩

theorem hexDigitChar_ne_nl {m : Nat} (h : m < 16) : hexDigitChar m ≠ '\n' := by
  have key : ∀ i : Fin 16, hexDigitChar i.val ≠ '\n' := by decide
  exact key ⟨m, h⟩

theorem parseStrBody_esc (c : Char) (tail : List Char) :
    parseStrBody (escChar c ++ tail) = (parseStrBody tail).map (fun p => (c :: p.1, p.2)) := by
  by_cases h1 : c = '"'
  · subst h1
    simp only [escChar, if_pos rfl, List.cons_append, List.nil_append]
    rw [parseStrBody.eq_def]
    simp
  by_cases h2 : c = '\\'
  · subst h2
    simp only [escChar, h1, if_false, if_pos rfl, List.cons_append, List.nil_append]
    rw [parseStrBody.eq_def]
    simp
  by_cases h3 : c = '\n'
  · subst h3
    simp only [escChar, h1, h2, if_false, if_pos rfl, List.cons_append, List.nil_append]
    rw [parseStrBody.eq_def]
    simp
  by_cases h4 : c = '\t'
  · subst h4
    simp only [escChar, h1, h2, h3, if_false, if_pos rfl, List.cons_append, List.nil_append]
    rw [parseStrBody.eq_def]
    simp
  by_cases h5 : c = '\r'
  · subst h5
    simp only [escChar, h1, h2, h3, h4, if_false, if_pos rfl, List.cons_append, List.nil_append]
    rw [parseStrBody.eq_def]
    simp
  by_cases h6 : c = Char.ofNat 8
  · subst h6
    simp only [escChar, h1, h2, h3, h4, h5, if_false, if_pos rfl, List.cons_append,
      List.nil_append]
    rw [parseStrBody.eq_def]
    simp
  by_cases h7 : c = Char.ofNat 12
  · subst h7
    simp only [escChar, h1, h2, h3, h4, h5, h6, if_false, if_pos rfl, List.cons_append,
      List.nil_append]
    rw [parseStrBody.eq_def]
    simp
  by_cases h8 : c.toNat < 32
  · have hdiv : c.toNat / 16 < 16 := by omega
    have hmod : c.toNat % 16 < 16 := Nat.mod_lt _ (by omega)
    have h0 : hexVal '0' = some 0 := by decide
    simp only [escChar, h1, h2, h3, h4, h5, h6, h7, h8, if_false, if_pos rfl, if_true,
      List.cons_append, List.nil_append]
    rw [parseStrBody.eq_def]
    simp only [h0, hexVal_hexDigitChar hdiv, hexVal_hexDigitChar hmod]
    have hchar : Char.ofNat (c.toNat / 16 * 16 + c.toNat % 16) = c := by
      have harith : c.toNat / 16 * 16 + c.toNat % 16 = c.toNat := by omega
      rw [harith, Char.ofNat_toNat]
    simp [hchar]
  · have hesc : escChar c = [c] := by
      simp [escChar, h1, h2, h3, h4, h5, h6, h7, h8]
    rw [hesc]
    simp only [List.cons_append, List.nil_append]
    rw [parseStrBody.eq_def]
    simp [h1, h2]

theorem parseStrBody_escList (cs : List Char) : ∀ rest,
    parseStrBody (escList cs ++ '"' :: rest) = some (cs, rest) := by
  induction cs with
  | nil =>
    intro rest
    simp only [escList, List.map_nil, List.flatten_nil, List.nil_append]
    rw [parseStrBody.eq_def]
    simp
  | cons c cs ih =>
    intro rest
    have hsplit : escList (c :: cs) = escChar c ++ escList cs := by
      simp [escList]
    rw [hsplit, List.append_assoc, parseStrBody_esc, ih]
    rfl

theorem escChar_ne_nl (c : Char) : '\n' ∉ escChar c := by
  by_cases h1 : c = '"'
  · subst h1; decide
  by_cases h2 : c = '\\'
  · subst h2
    simp only [escChar, h1, if_false, if_pos rfl]
    decide
  by_cases h3 : c = '\n'
  · subst h3
    simp only [escChar, h1, h2, if_false, if_pos rfl]
    decide
  by_cases h4 : c = '\t'
  · subst h4
    simp only [escChar, h1, h2, h3, if_false, if_pos rfl]
    decide
  by_cases h5 : c = '\r'
  · subst h5
    simp only [escChar, h1, h2, h3, h4, if_false, if_pos rfl]
    decide
  by_cases h6 : c = Char.ofNat 8
  · subst h6
    simp only [escChar, h1, h2, h3, h4, h5, if_false, if_pos rfl]
    decide
  by_cases h7 : c = Char.ofNat 12
  · subst h7
    simp only [escChar, h1, h2, h3, h4, h5, h6, if_false, if_pos rfl]
    decide
  by_cases h8 : c.toNat < 32
  · simp only [escChar, h1, h2, h3, h4, h5, h6, h7, h8, if_false, if_pos rfl, if_true]
    intro hmem
    simp only [List.mem_cons, List.not_mem_nil, or_false] at hmem
    rcases hmem with h | h | h | h | h | h
    · exact absurd h.symm (by decide)
    · exact absurd h.symm (by decide)
    · exact absurd h.symm (by decide)
    · exact absurd h.symm (by decide)
    · exact absurd h.symm (hexDigitChar_ne_nl (by omega))
    · exact absurd h.symm (hexDigitChar_ne_nl (by omega))
  · have hesc : escChar c = [c] := by
      simp [escChar, h1, h2, h3, h4, h5, h6, h7, h8]
    rw [hesc]
    simp [Ne.symm h3]

theorem escList_ne_nl (cs : List Char) : '\n' ∉ escList cs := by
  induction cs with
  | nil => simp [escList]
  | cons c cs ih =>
    have hsplit : escList (c :: cs) = escChar c ++ escList cs := by
      simp [escList]
    rw [hsplit]
    intro hmem
    rcases List.mem_append.mp hmem with h | h
    · exact escChar_ne_nl c h
    · exact ih h

theorem serNat_ne_nl (n : Nat) : '\n' ∉ serNat n := by
  intro hmem
  have hd := serNat_all_digit n '\n' hmem
  exact absurd hd (by decide)

theorem serInt_ne_nl (n : Int) : '\n' ∉ serInt n := by
  cases n with
  | ofNat m => exact serNat_ne_nl m
  | negSucc m =>
    simp only [serInt, List.mem_cons]
    rintro (h | h)
    · exact absurd h.symm (by decide)
    · exact serNat_ne_nl _ h

/-! ## Parser step lemmas -/

theorem parseJsonF_str (f : Nat) (rest : List Char) :
    parseJsonF (f + 1) ('"' :: rest)
      = (parseStrBody rest).map (fun p => (Json.str ⟨p.1⟩, p.2)) := by
  simp only [parseJsonF]
  simp

theorem parseJsonF_obj_nil (f : Nat) (rest : List Char) :
    parseJsonF (f + 1) ('{' :: '}' :: rest) = some (.obj .nil, rest) := by
  simp only [parseJsonF]
  simp

theorem parseJsonF_obj_go (f : Nat) (c : Char) (rest : List Char) (hc : ¬ c = '}')
    (o : JObj) (r3 : List Char)
    (hfields : parseFieldsF f (c :: rest) = some (o, '}' :: r3)) :
    parseJsonF (f + 1) ('{' :: c :: rest) = some (.obj o, r3) := by
  simp only [parseJsonF]
  simp only [hfields]
  simp [hc]

theorem parseJsonF_digit (f : Nat) (c : Char) (rest : List Char) (hc : c.isDigit = true) :
    parseJsonF (f + 1) (c :: rest)
      = some (.num (Int.ofNat (parseDigits (c :: rest) 0).1), (parseDigits (c :: rest) 0).2) := by
  obtain ⟨hq, hb, _, _, _⟩ := digit_ne hc
  simp only [parseJsonF]
  simp [hq, hb, hc]

theorem parseJsonF_neg (f : Nat) (d : Char) (rest : List Char) (hd : d.isDigit = true) :
    parseJsonF (f + 1) ('-' :: d :: rest)
      = some (.num (-(Int.ofNat (parseDigits (d :: rest) 0).1)),
          (parseDigits (d :: rest) 0).2) := by
  simp only [parseJsonF]
  simp [hd]

theorem parseFieldsF_last (f : Nat) (k : List Char) (v : Json) (rest r2 r3 : List Char)
    (hk : parseStrBody rest = some (k, ':' :: r2))
    (hv : parseJsonF f r2 = some (v, '}' :: r3)) :
    parseFieldsF (f + 1) ('"' :: rest) = some (.cons ⟨k⟩ v .nil, '}' :: r3) := by
  simp only [parseFieldsF]
  simp [hk, hv]

theorem parseFieldsF_more (f : Nat) (k : List Char) (v : Json) (rest r2 r4 r5 : List Char)
    (o : JObj)
    (hk : parseStrBody rest = some (k, ':' :: r2))
    (hv : parseJsonF f r2 = some (v, ',' :: r4))
    (ho : parseFieldsF f r4 = some (o, r5)) :
    parseFieldsF (f + 1) ('"' :: rest) = some (.cons ⟨k⟩ v o, r5) := by
  simp only [parseFieldsF]
  simp [hk, hv, ho]

/-! ## Structural facts about serialization -/

theorem Json.casesOn3 {P : Json → Prop} (j : Json) (hs : ∀ s, P (.str s))
    (hn : ∀ n, P (.num n)) (ho : ∀ o, P (.obj o)) : P j :=
  match j with
  | .str s => hs s
  | .num n => hn n
  | .obj o => ho o

theorem JObj.casesOn2 {P : JObj → Prop} (o : JObj) (hnil : P .nil)
    (hcons : ∀ k v rest, P (.cons k v rest)) : P o :=
  match o with
  | .nil => hnil
  | .cons k v rest => hcons k v rest

theorem jsize_pos (j : Json) : 1 ≤ jsize j := by
  induction j using Json.casesOn3 with
  | hs s => simp [jsize]
  | hn n => simp [jsize]
  | ho o => simp [jsize]

theorem serInt_ne_nil (n : Int) : serInt n ≠ [] := by
  cases n with
  | ofNat m => exact serNat_ne_nil m
  | negSucc m => simp [serInt]

theorem serFields_cons_nil (k : String) (v : Json) :
    serFields (.cons k v .nil) = '"' :: (escList k.data ++ '"' :: ':' :: serJson v) := by
  conv_lhs => rw [serFields]
  simp

theorem serFields_cons_cons (k : String) (v : Json) (k2 : String) (v2 : Json) (r2 : JObj) :
    serFields (.cons k v (.cons k2 v2 r2))
      = '"' :: (escList k.data ++ '"' :: ':' :: serJson v)
        ++ ',' :: serFields (.cons k2 v2 r2) := by
  conv_lhs => rw [serFields]

theorem ser_size_le : ∀ n : Nat,
    (∀ j, jsize j ≤ n → jsize j ≤ (serJson j).length)
    ∧ (∀ o, osize o ≤ n → osize o ≤ (serFields o).length) := by
  intro n
  induction n with
  | zero =>
    constructor
    · intro j hsz
      have := jsize_pos j
      omega
    · intro o hsz
      induction o using JObj.casesOn2 with
      | hnil => simp [osize]
      | hcons k v r => simp [osize] at hsz
  | succ m ih =>
    constructor
    · intro j hsz
      induction j using Json.casesOn3 with
      | hs s => simp [jsize, serJson]
      | hn n =>
        have hne := serInt_ne_nil n
        have hpos : 0 < (serInt n).length := List.length_pos.mpr hne
        simp only [jsize, serJson]
        omega
      | ho o =>
        simp only [jsize] at hsz
        have hrec := ih.2 o (by omega)
        simp only [jsize, serJson, List.length_cons, List.length_append,
          List.length_singleton]
        omega
    · intro o hsz
      induction o using JObj.casesOn2 with
      | hnil => simp [osize]
      | hcons k v r =>
        simp only [osize] at hsz
        have hv := ih.1 v (by omega)
        have hr := ih.2 r (by omega)
        induction r using JObj.casesOn2 with
        | hnil =>
          rw [serFields_cons_nil]
          simp only [osize, List.length_append, List.length_cons] at *
          omega
        | hcons k2 v2 r2 =>
          rw [serFields_cons_cons]
          simp only [osize, List.length_append, List.length_cons] at *
          omega

theorem serJson_jsize_le (j : Json) : jsize j ≤ (serJson j).length :=
  (ser_size_le (jsize j)).1 j le_rfl

theorem ser_no_nl : ∀ n : Nat,
    (∀ j, jsize j ≤ n → '\n' ∉ serJson j)
    ∧ (∀ o, osize o ≤ n → '\n' ∉ serFields o) := by
  intro n
  induction n with
  | zero =>
    constructor
    · intro j hsz
      have := jsize_pos j
      omega
    · intro o hsz
      induction o using JObj.casesOn2 with
      | hnil => simp [serFields]
      | hcons k v r => simp [osize] at hsz
  | succ m ih =>
    constructor
    · intro j hsz
      induction j using Json.casesOn3 with
      | hs s =>
        simp only [serJson, List.mem_cons, List.mem_append, List.mem_singleton]
        rintro (h | h | h)
        · exact absurd h (by decide)
        · exact escList_ne_nl _ h
        · exact absurd h (by decide)
      | hn n => exact serInt_ne_nl n
      | ho o =>
        simp only [jsize] at hsz
        have hrec := ih.2 o (by omega)
        simp only [serJson, List.mem_cons, List.mem_append, List.mem_singleton]
        rintro (h | h | h)
        · exact absurd h (by decide)
        · exact hrec h
        · exact absurd h (by decide)
    · intro o hsz
      induction o using JObj.casesOn2 with
      | hnil => simp [serFields]
      | hcons k v r =>
        simp only [osize] at hsz
        have hv := ih.1 v (by omega)
        have hr := ih.2 r (by omega)
        induction r using JObj.casesOn2 with
        | hnil =>
          rw [serFields_cons_nil]
          simp only [List.mem_cons, List.mem_append]
          rintro (h | h | h | h | h)
          · exact absurd h (by decide)
          · exact escList_ne_nl _ h
          · exact absurd h (by decide)
          · exact absurd h (by decide)
          · exact hv h
        | hcons k2 v2 r2 =>
          rw [serFields_cons_cons]
          simp only [List.mem_cons, List.mem_append, or_assoc]
          rintro (h | h | h | h | h | h | h)
          · exact absurd h (by decide)
          · exact escList_ne_nl _ h
          · exact absurd h (by decide)
          · exact absurd h (by decide)
          · exact hv h
          · exact absurd h (by decide)
          · exact hr h

theorem serJson_ne_nl (j : Json) : '\n' ∉ serJson j :=
  (ser_no_nl (jsize j)).1 j le_rfl

theorem serFields_cons_head (k : String) (v : Json) (r : JObj) :
    ∃ cs, serFields (.cons k v r) = '"' :: cs := by
  induction r using JObj.casesOn2 with
  | hnil =>
    rw [serFields_cons_nil]
    exact ⟨_, rfl⟩
  | hcons k2 v2 r2 =>
    rw [serFields_cons_cons]
    exact ⟨_, rfl⟩

theorem parse_ser_main : ∀ fuel : Nat,
    (∀ j rest, jsize j ≤ fuel → headDigit rest = false →
      parseJsonF fuel (serJson j ++ rest) = some (j, rest))
    ∧ (∀ o rest, o ≠ JObj.nil → osize o ≤ fuel →
      parseFieldsF fuel (serFields o ++ '}' :: rest) = some (o, '}' :: rest)) := by
  intro fuel
  induction fuel with
  | zero =>
    constructor
    · intro j rest hsz _
      have := jsize_pos j
      omega
    · intro o rest hne hsz
      induction o using JObj.casesOn2 with
      | hnil => exact absurd rfl hne
      | hcons k v r => simp [osize] at hsz
  | succ f ih =>
    constructor
    · intro j rest hsz hd
      induction j using Json.casesOn3 with
      | hs s =>
        have hshape : serJson (.str s) ++ rest = '"' :: (escList s.data ++ '"' :: rest) := by
          simp [serJson]
        rw [hshape, parseJsonF_str, parseStrBody_escList]
        rfl
      | hn n =>
        cases n with
        | ofNat m =>
          rcases hser : serNat m with _ | ⟨d, ds⟩
          · exact absurd hser (serNat_ne_nil m)
          · have hd1 : d.isDigit = true := serNat_all_digit m d (by rw [hser]; simp)
            have hshape : serJson (.num (Int.ofNat m)) ++ rest = d :: (ds ++ rest) := by
              simp only [serJson, serInt, hser, List.cons_append]
            rw [hshape, parseJsonF_digit f d (ds ++ rest) hd1]
            have hpd : parseDigits (d :: (ds ++ rest)) 0 = (m, rest) := by
              have hkey := parseDigits_serNat m rest hd
              rw [hser] at hkey
              simpa using hkey
            rw [hpd]
        | negSucc m =>
          rcases hser : serNat (m + 1) with _ | ⟨d, ds⟩
          · exact absurd hser (serNat_ne_nil (m + 1))
          · have hd1 : d.isDigit = true := serNat_all_digit (m + 1) d (by rw [hser]; simp)
            have hshape : serJson (.num (Int.negSucc m)) ++ rest
                = '-' :: d :: (ds ++ rest) := by
              simp only [serJson, serInt, hser, List.cons_append]
            rw [hshape, parseJsonF_neg f d (ds ++ rest) hd1]
            have hpd : parseDigits (d :: (ds ++ rest)) 0 = (m + 1, rest) := by
              have hkey := parseDigits_serNat (m + 1) rest hd
              rw [hser] at hkey
              simpa using hkey
            rw [hpd]
            have hneg : -(Int.ofNat (m + 1)) = Int.negSucc m := by
              rw [Int.negSucc_eq]
              simp
            simp only [hneg]
      | ho o =>
        induction o using JObj.casesOn2 with
        | hnil =>
          have hshape : serJson (.obj .nil) ++ rest = '{' :: '}' :: rest := by
            simp [serJson, serFields]
          rw [hshape, parseJsonF_obj_nil]
        | hcons k v r =>
          simp only [jsize] at hsz
          have hos : osize (JObj.cons k v r) ≤ f := by omega
          have hne2 : JObj.cons k v r ≠ JObj.nil := fun hcontra => JObj.noConfusion hcontra
          have hfields := ih.2 (.cons k v r) rest hne2 hos
          obtain ⟨cs, hsf⟩ := serFields_cons_head k v r
          have hshape : serJson (.obj (.cons k v r)) ++ rest
              = '{' :: ('"' :: (cs ++ '}' :: rest)) := by
            simp only [serJson, hsf, List.cons_append, List.append_assoc,
              List.singleton_append, List.nil_append]
          rw [hshape]
          apply parseJsonF_obj_go f '"' (cs ++ '}' :: rest) (by decide)
          have hrw : serFields (.cons k v r) ++ '}' :: rest = '"' :: (cs ++ '}' :: rest) := by
            rw [hsf]
            simp
          rw [hrw] at hfields
          exact hfields
    · intro o rest hne hsz
      induction o using JObj.casesOn2 with
      | hnil => exact absurd rfl hne
      | hcons k v r =>
        rw [osize] at hsz
        induction r using JObj.casesOn2 with
        | hnil =>
          have hv := ih.1 v ('}' :: rest) (by omega) (by simp [headDigit])
          have hshape : serFields (.cons k v .nil) ++ '}' :: rest
              = '"' :: (escList k.data ++ '"' :: ':' :: (serJson v ++ '}' :: rest)) := by
            rw [serFields_cons_nil]
            simp
          rw [hshape]
          exact parseFieldsF_last f k.data v _ _ rest
            (parseStrBody_escList k.data (':' :: (serJson v ++ '}' :: rest))) hv
        | hcons k2 v2 r2 =>
          have hv := ih.1 v (',' :: (serFields (.cons k2 v2 r2) ++ '}' :: rest)) (by omega)
            (by simp [headDigit])
          have hne3 : JObj.cons k2 v2 r2 ≠ JObj.nil := fun hcontra => JObj.noConfusion hcontra
          have ho := ih.2 (.cons k2 v2 r2) rest hne3 (by omega)
          have hshape : serFields (.cons k v (.cons k2 v2 r2)) ++ '}' :: rest
              = '"' :: (escList k.data ++ '"' :: ':' ::
                  (serJson v ++ ',' :: (serFields (.cons k2 v2 r2) ++ '}' :: rest))) := by
            rw [serFields_cons_cons]
            simp
          rw [hshape]
          exact parseFieldsF_more f k.data v _ _ _ _ _
            (parseStrBody_escList k.data _) hv ho

theorem jsonParse_serJson (j : Json) : jsonParse (serJson j) = some j := by
  have hmain := (parse_ser_main ((serJson j).length + 1)).1 j []
    (by have := serJson_jsize_le j; omega) rfl
  rw [List.append_nil] at hmain
  rw [jsonParse, hmain]

/-! ## Lemmas about the action header -/

theorem maybe_set_id_some (k : String) (v : Value) (e : Event) (doc : JObj)
    (h : e.get k = some v) :
    maybe_set_id (some k) doc e = doc.insert "_id" (.str v.to_string_lossy) := by
  simp [maybe_set_id, h]

theorem maybe_set_id_absent (k : String) (e : Event) (doc : JObj)
    (h : e.get k = Option.none) : maybe_set_id (some k) doc e = doc := by
  simp [maybe_set_id, h]

theorem maybe_set_id_unset (e : Event) (doc : JObj) :
    maybe_set_id Option.none doc e = doc := by
  simp [maybe_set_id]

theorem actionBase_get_index (idx dt : String) :
    ((JObj.nil.insert "_index" (.str idx)).insert "_type" (.str dt)).get? "_index"
      = some (.str idx) := by
  rw [JObj.get?_insert_ne _ _ _ _ (by decide), JObj.get?_insert_self]

theorem actionBase_get_type (idx dt : String) :
    ((JObj.nil.insert "_index" (.str idx)).insert "_type" (.str dt)).get? "_type"
      = some (.str dt) := by
  rw [JObj.get?_insert_self]

theorem actionBase_get_id (idx dt : String) :
    ((JObj.nil.insert "_index" (.str idx)).insert "_type" (.str dt)).get? "_id"
      = Option.none := by
  rw [JObj.get?_insert_ne _ _ _ _ (by decide), JObj.get?_insert_ne _ _ _ _ (by decide)]
  rfl

/-! ## Inversion lemmas for `es` -/

theorem es_ok_aws (cfg : ElasticSearchConfig) (credsResult : Except String Credentials)
    (p : SinkParams) (hprov : cfg.provider = some Provider.aws)
    (h : es cfg credsResult = .ok p) :
    ∃ uri r c, parseUri (cfg.host ++ bulkPathQuery cfg.query) = some uri
      ∧ regionResult cfg.region = .ok (some r)
      ∧ credsResult = .ok c
      ∧ p = esParams cfg uri (some r) (some c) false := by
  unfold es at h
  cases hu : parseUri (cfg.host ++ bulkPathQuery cfg.query) with
  | none => rw [hu] at h; simp at h
  | some uri =>
    rw [hu] at h
    cases hr : regionResult cfg.region with
    | error e => rw [hr] at h; simp at h
    | ok region =>
      rw [hr] at h
      rw [hprov] at h
      simp only [Option.getD_some] at h
      cases region with
      | none => simp at h
      | some r =>
        cases credsResult with
        | error e => simp at h
        | ok c =>
          simp only [] at h
          refine ⟨uri, r, c, rfl, rfl, rfl, ?_⟩
          cases h
          rfl

theorem es_ok_plain (cfg : ElasticSearchConfig) (credsResult : Except String Credentials)
    (p : SinkParams) (hprov : cfg.provider ≠ some Provider.aws)
    (h : es cfg credsResult = .ok p) :
    ∃ uri region, parseUri (cfg.host ++ bulkPathQuery cfg.query) = some uri
      ∧ regionResult cfg.region = .ok region
      ∧ p = esParams cfg uri region Option.none (gzipOf cfg) := by
  unfold es at h
  cases hu : parseUri (cfg.host ++ bulkPathQuery cfg.query) with
  | none => rw [hu] at h; simp at h
  | some uri =>
    rw [hu] at h
    cases hr : regionResult cfg.region with
    | error e => rw [hr] at h; simp at h
    | ok region =>
      rw [hr] at h
      have hgd : cfg.provider.getD Provider.default = Provider.default := by
        cases hp : cfg.provider with
        | none => rfl
        | some pr =>
          cases pr with
          | default => rfl
          | aws => exact absurd hp hprov
      rw [hgd] at h
      simp only [] at h
      refine ⟨uri, region, rfl, rfl, ?_⟩
      cases h
      rfl

theorem actionIndexObj_get_index (idx dt : String) (ik : Option String) (e : Event) :
    (actionIndexObj idx dt ik e).get? "_index" = some (.str idx) := by
  unfold actionIndexObj
  cases ik with
  | none => rw [maybe_set_id_unset, actionBase_get_index]
  | some k =>
    cases hg : e.get k with
    | none => rw [maybe_set_id_absent k e _ hg, actionBase_get_index]
    | some v =>
      rw [maybe_set_id_some k v e _ hg,
        JObj.get?_insert_ne _ _ _ _ (by decide), actionBase_get_index]

theorem actionIndexObj_get_type (idx dt : String) (ik : Option String) (e : Event) :
    (actionIndexObj idx dt ik e).get? "_type" = some (.str dt) := by
  unfold actionIndexObj
  cases ik with
  | none => rw [maybe_set_id_unset, actionBase_get_type]
  | some k =>
    cases hg : e.get k with
    | none => rw [maybe_set_id_absent k e _ hg, actionBase_get_type]
    | some v =>
      rw [maybe_set_id_some k v e _ hg,
        JObj.get?_insert_ne _ _ _ _ (by decide), actionBase_get_type]

theorem actionIndexObj_get_id_present (idx dt k : String) (v : Value) (e : Event)
    (h : e.get k = some v) :
    (actionIndexObj idx dt (some k) e).get? "_id" = some (.str v.to_string_lossy) := by
  unfold actionIndexObj
  rw [maybe_set_id_some k v e _ h, JObj.get?_insert_self]

theorem actionIndexObj_get_id_absent (idx dt k : String) (e : Event)
    (h : e.get k = Option.none) :
    (actionIndexObj idx dt (some k) e).get? "_id" = Option.none := by
  unfold actionIndexObj
  rw [maybe_set_id_absent k e _ h, actionBase_get_id]

theorem actionIndexObj_get_id_unset (idx dt : String) (e : Event) :
    (actionIndexObj idx dt Option.none e).get? "_id" = Option.none := by
  unfold actionIndexObj
  rw [maybe_set_id_unset, actionBase_get_id]

/-! ## The claims -/

/-- C1: for every event whose template fields resolve, `encode_event`
produces exactly two newline-terminated JSON lines; parsing them back
yields the action object (whose `_index` is the resolved index, `_type`
the configured document type, and `_id`, when the configured id field is
present, that field's string form) and a document object structurally
equal to the event's un-flattened nested field set. -/
theorem c1_encode_event_round_trip (e : Event) (t : Template) (dt : String)
    (ik : Option String) (idx : String) (h : t.render_string e = .ok idx) :
    ∃ l1 l2, encode_event e t dt ik = some (l1 ++ '\n' :: (l2 ++ ['\n']))
      ∧ '\n' ∉ l1 ∧ '\n' ∉ l2
      ∧ jsonParse l1 = some (encodeAction idx dt ik e)
      ∧ jsonParse l2 = some e.unflatten
      ∧ ∃ inner, encodeAction idx dt ik e = .obj (JObj.nil.insert "index" (.obj inner))
          ∧ inner.get? "_index" = some (.str idx)
          ∧ inner.get? "_type" = some (.str dt)
          ∧ ∀ k v, ik = some k → e.get k = some v →
              inner.get? "_id" = some (.str v.to_string_lossy) := by
  refine ⟨serJson (encodeAction idx dt ik e), serJson e.unflatten, ?_,
    serJson_ne_nl _, serJson_ne_nl _, jsonParse_serJson _, jsonParse_serJson _,
    actionIndexObj idx dt ik e, rfl, actionIndexObj_get_index idx dt ik e,
    actionIndexObj_get_type idx dt ik e, ?_⟩
  · unfold encode_event
    rw [h]
  · intro k v hik hget
    subst hik
    exact actionIndexObj_get_id_present idx dt k v e hget

/-- C1 witness: a concrete event and template on which the hypothesis
holds and the round-trip theorem applies. -/
theorem c1_encode_event_round_trip_witness :
    (Template.mk [TemplatePart.fld "foo"]).render_string
        ⟨[("foo", Value.vStr "bar")], "T"⟩ = .ok "bar"
    ∧ ∃ l1 l2, encode_event ⟨[("foo", Value.vStr "bar")], "T"⟩
        (Template.mk [TemplatePart.fld "foo"]) "_doc" (some "foo")
        = some (l1 ++ '\n' :: (l2 ++ ['\n'])) := by
  have hren : (Template.mk [TemplatePart.fld "foo"]).render_string
      ⟨[("foo", Value.vStr "bar")], "T"⟩ = .ok "bar" := rfl
  obtain ⟨l1, l2, henc, _⟩ :=
    c1_encode_event_round_trip ⟨[("foo", Value.vStr "bar")], "T"⟩
      (Template.mk [TemplatePart.fld "foo"]) "_doc" (some "foo") "bar" hren
  exact ⟨hren, l1, l2, henc⟩

/-- C2: if an id field is configured and present on the event the encoded
action header carries an `_id` entry equal to that field's string form;
if the field is absent or no id field is configured, the header carries
no `_id` entry. -/
theorem c2_maybe_set_id_spec (e : Event) (idx dt : String) :
    (∀ k v, e.get k = some v →
      (actionIndexObj idx dt (some k) e).get? "_id" = some (.str v.to_string_lossy))
    ∧ (∀ k, e.get k = Option.none →
      (actionIndexObj idx dt (some k) e).get? "_id" = Option.none)
    ∧ (actionIndexObj idx dt Option.none e).get? "_id" = Option.none :=
  ⟨fun k v h => actionIndexObj_get_id_present idx dt k v e h,
   fun k h => actionIndexObj_get_id_absent idx dt k e h,
   actionIndexObj_get_id_unset idx dt e⟩

/-- C2 witness: concrete present, absent and unconfigured id fields. -/
theorem c2_maybe_set_id_spec_witness :
    Event.get ⟨[("foo", Value.vStr "bar")], "T"⟩ "foo" = some (Value.vStr "bar")
    ∧ (actionIndexObj "i" "_doc" (some "foo")
        ⟨[("foo", Value.vStr "bar")], "T"⟩).get? "_id" = some (.str "bar")
    ∧ Event.get ⟨[("foo", Value.vStr "bar")], "T"⟩ "nope" = Option.none
    ∧ (actionIndexObj "i" "_doc" (some "nope")
        ⟨[("foo", Value.vStr "bar")], "T"⟩).get? "_id" = Option.none
    ∧ (actionIndexObj "i" "_doc" Option.none
        ⟨[("foo", Value.vStr "bar")], "T"⟩).get? "_id" = Option.none := by
  refine ⟨rfl, ?_, rfl, ?_, ?_⟩
  · exact (c2_maybe_set_id_spec ⟨[("foo", Value.vStr "bar")], "T"⟩ "i" "_doc").1
      "foo" (Value.vStr "bar") rfl
  · exact (c2_maybe_set_id_spec ⟨[("foo", Value.vStr "bar")], "T"⟩ "i" "_doc").2.1
      "nope" rfl
  · exact (c2_maybe_set_id_spec ⟨[("foo", Value.vStr "bar")], "T"⟩ "i" "_doc").2.2

/-- C3: when the index template fails to resolve, the resolution error
names exactly the missing keys, `encode_event` produces nothing (the
event is dropped), and the surrounding `with_flat_map` stage continues
with the remaining events of the batch. -/
theorem c3_unresolved_template_drops_event (e : Event) (t : Template) (dt : String)
    (ik : Option String) (h : t.missingKeys e ≠ []) :
    t.render_string e = .error (t.missingKeys e)
    ∧ encode_event e t dt ik = Option.none
    ∧ ∀ pre post, encodeEvents (pre ++ e :: post) t dt ik
        = encodeEvents pre t dt ik ++ encodeEvents post t dt ik := by
  have hren : t.render_string e = .error (t.missingKeys e) := by
    unfold Template.render_string
    cases hm : t.missingKeys e with
    | nil => exact absurd hm h
    | cons a l => rfl
  have henc : encode_event e t dt ik = Option.none := by
    unfold encode_event
    rw [hren]
  refine ⟨hren, henc, ?_⟩
  intro pre post
  unfold encodeEvents
  rw [List.filterMap_append]
  simp [henc]

/-- C3 witness: an event missing the template's only referenced field. -/
theorem c3_unresolved_template_drops_event_witness :
    (Template.mk [TemplatePart.fld "foo"]).missingKeys ⟨[], "T"⟩ ≠ []
    ∧ encode_event ⟨[], "T"⟩ (Template.mk [TemplatePart.fld "foo"]) "_doc" Option.none
        = Option.none
    ∧ encodeEvents ([] ++ ⟨[], "T"⟩ :: []) (Template.mk [TemplatePart.fld "foo"])
        "_doc" Option.none = [] := by
  have hmiss : (Template.mk [TemplatePart.fld "foo"]).missingKeys ⟨[], "T"⟩ ≠ [] := by
    intro hcontra
    exact List.noConfusion hcontra
  have hk := c3_unresolved_template_drops_event ⟨[], "T"⟩
    (Template.mk [TemplatePart.fld "foo"]) "_doc" Option.none hmiss
  refine ⟨hmiss, hk.2.1, ?_⟩
  have hsplit := hk.2.2 [] []
  simpa [encodeEvents] using hsplit

/-- C4: a configuration selecting the AWS provider without a region (and
whose host parses, so that construction reaches the provider branch)
makes `es` return the region error: no parameter record is produced, so
no request is ever built, and the message mentions the word region. -/
theorem c4_aws_requires_region (cfg : ElasticSearchConfig)
    (credsResult : Except String Credentials)
    (hprov : cfg.provider = some Provider.aws) (hreg : cfg.region = Option.none)
    (hhost : ∃ u, parseUri (cfg.host ++ bulkPathQuery cfg.query) = some u) :
    es cfg credsResult = .err "AWS provider requires a configured region"
    ∧ (∀ p, es cfg credsResult ≠ .ok p)
    ∧ ∃ pre post, "AWS provider requires a configured region"
        = pre ++ "region" ++ post := by
  obtain ⟨u, hu⟩ := hhost
  have hmain : es cfg credsResult = .err "AWS provider requires a configured region" := by
    unfold es
    rw [hu, hreg, hprov]
    simp [regionResult]
  refine ⟨hmain, ?_, "AWS provider requires a configured ", "", by decide⟩
  intro p hcontra
  rw [hmain] at hcontra
  exact BuildResult.noConfusion hcontra

/-- C4 witness: a concrete AWS configuration without a region. -/
theorem c4_aws_requires_region_witness :
    ({ host := "http://localhost:9200", provider := some Provider.aws }
        : ElasticSearchConfig).provider = some Provider.aws
    ∧ ({ host := "http://localhost:9200", provider := some Provider.aws }
        : ElasticSearchConfig).region = Option.none
    ∧ es { host := "http://localhost:9200", provider := some Provider.aws }
        (.error "credentials unavailable")
        = .err "AWS provider requires a configured region" := by
  refine ⟨rfl, rfl, ?_⟩
  exact (c4_aws_requires_region
    { host := "http://localhost:9200", provider := some Provider.aws }
    (.error "credentials unavailable") rfl rfl ⟨_, rfl⟩).1

/-- C5: selecting the AWS provider forces compression off regardless of
the configured compression flag: the construction stores `gzip = false`,
the batch buffer is created non-compressing, and every signed request
carries the exact payload bytes with no content-encoding header (beyond
any the operator adds statically, excluded by hypothesis). -/
theorem c5_aws_disables_compression (cfg : ElasticSearchConfig)
    (credsResult : Except String Credentials) (p : SinkParams)
    (hprov : cfg.provider = some Provider.aws)
    (hok : es cfg credsResult = .ok p)
    (hhdr : ∀ w, ("Content-Encoding", w) ∉ cfg.headers.getD []) :
    p.gzip = false
    ∧ (Buffer.new p.gzip).compressing = false
    ∧ ∀ body, ∃ r, buildRequest p body = some r
        ∧ r.body = body
        ∧ ∀ w, ("Content-Encoding", w) ∉ r.headers := by
  obtain ⟨uri, rg, c, hu, hr, hc, hp⟩ := es_ok_aws cfg credsResult p hprov hok
  subst hp
  refine ⟨rfl, rfl, ?_⟩
  intro body
  refine ⟨_, rfl, rfl, ?_⟩
  intro w hmem
  simp only [esParams, buildRequest, List.mem_cons, List.mem_append] at hmem
  rcases hmem with h | h | h
  · simp at h
  · exact hhdr w h
  · cases hct : c.token with
    | none => simp [signedHeaders, hct] at h
    | some tkn => simp [signedHeaders, hct] at h

/-- C5 witness: a concrete AWS configuration with compression explicitly
requested, on which construction succeeds and compression is still off. -/
theorem c5_aws_disables_compression_witness :
    ∃ p, es
        { host := "http://localhost:9200", provider := some Provider.aws,
          region := some ⟨"us-east-1"⟩, compression := some Compression.gzip }
        (.ok ⟨"AKID", "SECRET", Option.none⟩) = .ok p
      ∧ p.gzip = false ∧ (Buffer.new p.gzip).compressing = false := by
  have hk := c5_aws_disables_compression
    { host := "http://localhost:9200", provider := some Provider.aws,
      region := some ⟨"us-east-1"⟩, compression := some Compression.gzip }
    (.ok ⟨"AKID", "SECRET", Option.none⟩) _ rfl rfl (by simp)
  exact ⟨_, rfl, hk.1, hk.2.1⟩

/-- C6: evaluating the URI assembly of `es` at a concrete configuration
(host `http://localhost:9200`, one static query pair `pipeline=test`):
`url::form_urlencoded::Serializer::new` is seeded with the non-empty
buffer `/_bulk`, so the first pair is preceded by an ampersand; the
produced target contains no question mark at all, against the
specification's `<host><path>?<query>` wire format. -/
theorem c6_query_separator_eval :
    bulkPathQuery (some [("pipeline", "test")]) = "/_bulk&pipeline=test"
    ∧ "http://localhost:9200" ++ bulkPathQuery (some [("pipeline", "test")])
        = "http://localhost:9200/_bulk&pipeline=test"
    ∧ '?' ∉ (bulkPathQuery (some [("pipeline", "test")])).data
    ∧ bulkPathQuery (some [("pipeline", "test")]) ≠ "/_bulk?pipeline=test" := by
  refine ⟨by decide, by decide, by decide, by decide⟩

/-- C7 counterexample: on a host string that is not a parseable URI, `es`
does not return an error — the `expect` at src line 129 panics instead,
so the build result is the panic outcome, never the error outcome the
claim describes. -/
theorem c7_bad_host_counterexample :
    parseUri ("not a uri" ++ bulkPathQuery Option.none) = Option.none
    ∧ es { host := "not a uri" } (.error "") = .panicked "Invalid elasticsearch host"
    ∧ BuildResult.isErr (es { host := "not a uri" } (.error "")) = false := by
  exact ⟨rfl, rfl, rfl⟩

/-- C7 amended: a configuration whose assembled host-plus-path string
does not parse as a URI still fails before any event is processed, but
by a panic carrying the message `Invalid elasticsearch host` rather than
by a returned error. -/
theorem c7_bad_host_panics (cfg : ElasticSearchConfig)
    (credsResult : Except String Credentials)
    (h : parseUri (cfg.host ++ bulkPathQuery cfg.query) = Option.none) :
    es cfg credsResult = .panicked "Invalid elasticsearch host" := by
  unfold es
  rw [h]

/-- C7 witness: a concrete unparseable host. -/
theorem c7_bad_host_panics_witness :
    parseUri (({ host := "bad host" } : ElasticSearchConfig).host
        ++ bulkPathQuery ({ host := "bad host" } : ElasticSearchConfig).query)
      = Option.none
    ∧ es { host := "bad host" } (.error "") = .panicked "Invalid elasticsearch host" :=
  ⟨rfl, c7_bad_host_panics { host := "bad host" } (.error "") rfl⟩

/-- C8: the healthcheck is one GET against `<host>/_cluster/health`,
succeeds exactly when the transport returned status 200 (OK), turns any
other status or transport error into a failure message, and is a
function of the host alone — it does not involve the delivery service's
limiter parameters (the request is independent of every other
configuration value). -/
theorem c8_healthcheck_contract (host : String) (outcome : TransportOutcome) :
    (healthcheck_request host).method = "GET"
    ∧ (healthcheck_request host).uri = host ++ "/_cluster/health"
    ∧ (healthcheck_result outcome = .ok () ↔ outcome = .response 200)
    ∧ (outcome ≠ .response 200 → ∃ msg, healthcheck_result outcome = .error msg)
    ∧ (∀ cfg1 cfg2 : ElasticSearchConfig, cfg1.host = cfg2.host →
        healthcheck_request cfg1.host = healthcheck_request cfg2.host) := by
  refine ⟨rfl, rfl, ?_, ?_, ?_⟩
  · constructor
    · intro hok
      cases outcome with
      | response s =>
        by_cases hs : s = 200
        · subst hs
          rfl
        · simp [healthcheck_result, hs] at hok
      | failure m => simp [healthcheck_result] at hok
    · rintro rfl
      rfl
  · intro hne
    cases outcome with
    | response s =>
      have hs : ¬ s = 200 := by
        intro hcontra
        exact hne (by rw [hcontra])
      exact ⟨"Unexpected status: " ++ toString s, by simp [healthcheck_result, hs]⟩
    | failure m => exact ⟨m, rfl⟩
  · intro cfg1 cfg2 hh
    rw [hh]

/-- C8 witness: a transport failure and a non-OK status both yield
failure messages; status 200 succeeds. -/
theorem c8_healthcheck_contract_witness :
    TransportOutcome.failure "connection refused" ≠ TransportOutcome.response 200
    ∧ (∃ msg, healthcheck_result (.failure "connection refused") = .error msg)
    ∧ TransportOutcome.response 503 ≠ TransportOutcome.response 200
    ∧ (∃ msg, healthcheck_result (.response 503) = .error msg)
    ∧ healthcheck_result (.response 200) = .ok () := by
  refine ⟨by simp, ?_, by simp, ?_, ?_⟩
  · exact (c8_healthcheck_contract "http://localhost:9200"
      (.failure "connection refused")).2.2.2.1 (by simp)
  · exact (c8_healthcheck_contract "http://localhost:9200"
      (.response 503)).2.2.2.1 (by simp)
  · exact (c8_healthcheck_contract "http://localhost:9200"
      (.response 200)).2.2.1.mpr rfl

/-- C9: in signed (AWS) mode the configured basic-auth pair is ignored:
every built request carries the signature-derived headers and the static
header map, and the `Authorization` value plain mode would add (stored
unused in the parameter record) never appears among the request headers
(static headers aside, excluded by hypothesis). -/
theorem c9_signed_ignores_basic_auth (cfg : ElasticSearchConfig)
    (credsResult : Except String Credentials) (p : SinkParams)
    (hprov : cfg.provider = some Provider.aws)
    (hok : es cfg credsResult = .ok p)
    (hhdr : ∀ w, ("Authorization", w) ∉ cfg.headers.getD []) :
    ∃ c rg, p.credentials = some c ∧ p.region = some rg
      ∧ ∀ body, ∃ r, buildRequest p body = some r
          ∧ (∀ hd ∈ signedHeaders c rg p.uri body, hd ∈ r.headers)
          ∧ (∀ hd ∈ cfg.headers.getD [], hd ∈ r.headers)
          ∧ (∀ w, p.authorization = some w → ("Authorization", w) ∉ r.headers) := by
  obtain ⟨uri, rg, c, hu, hr, hc, hp⟩ := es_ok_aws cfg credsResult p hprov hok
  subst hp
  refine ⟨c, rg, rfl, rfl, ?_⟩
  intro body
  refine ⟨_, rfl, ?_, ?_, ?_⟩
  · intro hd hmem
    exact List.mem_cons_of_mem _ (List.mem_append_right _ hmem)
  · intro hd hmem
    exact List.mem_cons_of_mem _ (List.mem_append_left _ hmem)
  · intro w hw hmem
    simp only [esParams, buildRequest, List.mem_cons, List.mem_append] at hmem
    rcases hmem with h | h | h
    · simp at h
    · exact hhdr w h
    · cases hct : c.token with
      | none => simp [signedHeaders, hct] at h
      | some tkn => simp [signedHeaders, hct] at h

/-- C9 witness: a concrete signed configuration with a configured
basic-auth pair whose Authorization header is absent from the built
request. -/
theorem c9_signed_ignores_basic_auth_witness :
    ∃ p, es
        { host := "http://localhost:9200", provider := some Provider.aws,
          region := some ⟨"us-east-1"⟩,
          basic_auth := some ⟨"hunter2", "elastic"⟩ }
        (.ok ⟨"AKID", "SECRET", Option.none⟩) = .ok p
      ∧ ∃ r, buildRequest p [] = some r
          ∧ ∀ w, p.authorization = some w → ("Authorization", w) ∉ r.headers := by
  have hk := c9_signed_ignores_basic_auth
    { host := "http://localhost:9200", provider := some Provider.aws,
      region := some ⟨"us-east-1"⟩,
      basic_auth := some ⟨"hunter2", "elastic"⟩ }
    (.ok ⟨"AKID", "SECRET", Option.none⟩) _ rfl rfl (by simp)
  obtain ⟨c, rg, _, _, hbody⟩ := hk
  obtain ⟨r, hreq, _, _, hauth⟩ := hbody []
  exact ⟨_, rfl, r, hreq, hauth⟩

/-- C10: with the compression flag unconfigured, compression defaults to
gzip: a successful plain-mode build stores `gzip = true`, creates a
compressing batch buffer, and every request carries the gzip
content-encoding header; across all successful builds, compression is
off exactly when it was explicitly configured off or the AWS provider
was selected. -/
theorem c10_compression_default (cfg : ElasticSearchConfig)
    (credsResult : Except String Credentials) (p : SinkParams)
    (hok : es cfg credsResult = .ok p) :
    (p.gzip = false ↔ (cfg.compression = some Compression.none
        ∨ cfg.provider = some Provider.aws))
    ∧ (cfg.compression = Option.none → cfg.provider ≠ some Provider.aws →
        p.gzip = true ∧ (Buffer.new p.gzip).compressing = true
        ∧ ∀ body, ∃ r, buildRequest p body = some r
            ∧ ("Content-Encoding", "gzip") ∈ r.headers) := by
  by_cases hprov : cfg.provider = some Provider.aws
  · obtain ⟨uri, rg, c, hu, hr, hc, hp⟩ := es_ok_aws cfg credsResult p hprov hok
    subst hp
    constructor
    · simp [esParams, hprov]
    · intro _ hne
      exact absurd hprov hne
  · obtain ⟨uri, region, hu, hr, hp⟩ := es_ok_plain cfg credsResult p hprov hok
    subst hp
    constructor
    · simp only [esParams]
      constructor
      · intro hg
        left
        unfold gzipOf at hg
        cases hcompr : cfg.compression with
        | none =>
          rw [hcompr] at hg
          simp at hg
        | some cc =>
          cases cc with
          | none => rfl
          | gzip =>
            rw [hcompr] at hg
            simp at hg
      · rintro (hcompr | hcontra)
        · unfold gzipOf
          rw [hcompr]
          rfl
        · exact absurd hcontra hprov
    · intro hcompr _
      have hg : gzipOf cfg = true := by
        unfold gzipOf
        rw [hcompr]
        rfl
      refine ⟨by simp [esParams, hg], by simp [esParams, Buffer.new, hg], ?_⟩
      intro body
      refine ⟨_, rfl, ?_⟩
      simp [esParams, buildRequest, hg]

/-- C10 witness: a default configuration (no compression flag, no
provider) builds compressing and sends the gzip header. -/
theorem c10_compression_default_witness :
    ∃ p, es { host := "http://localhost:9200" } (.error "") = .ok p
      ∧ p.gzip = true ∧ (Buffer.new p.gzip).compressing = true
      ∧ ∃ r, buildRequest p [] = some r ∧ ("Content-Encoding", "gzip") ∈ r.headers := by
  have hk := c10_compression_default { host := "http://localhost:9200" } (.error "") _ rfl
  have hres := hk.2 rfl (by simp)
  obtain ⟨r, hreq, hmem⟩ := hres.2.2 []
  exact ⟨_, rfl, hres.1, hres.2.1, r, hreq, hmem⟩
